import Mathlib

/-!
Shallow embedding of `scripts/update_substack_feed.py`: a fetch-and-normalize
pipeline that retrieves a Substack publication feed (RSS 2.0, Atom, or the JSON
archive API), normalizes entries into post records, and atomically writes a
JSON snapshot.  External effects (curl attempts, the random jitter, the clock,
and the stdlib decoders `json.loads` / `ET.fromstring` /
`email.utils.parsedate_to_datetime`) are modelled as explicit parameters or
outcome sequences; everything else is translated directly from the source.
-/

namespace Substack

/-! ## Bytes and Python-style string helpers -/

/-- Byte strings (`bytes` in Python) as lists of byte values. -/
abbrev Bytes := List Nat

/-- The bytes of an ASCII string literal (models a `b"..."` literal). -/
def bytesOf (s : String) : Bytes := s.data.map Char.toNat

/-- ASCII whitespace as stripped by Python `bytes.lstrip()` / `str.strip()`. -/
def isWSByte (c : Nat) : Bool :=
  c == 32 || c == 9 || c == 10 || c == 13 || c == 11 || c == 12

/-- Whitespace test on characters (the ASCII whitespace of `str.strip()`). -/
def isWSChar (c : Char) : Bool := isWSByte c.toNat

/-- `bytes.lstrip()`. -/
def lstripB (b : Bytes) : Bytes := b.dropWhile isWSByte

/-- `bytes.startswith(p)` / `str.startswith(p)` on byte lists. -/
def startsWithB (b p : Bytes) : Bool := List.isPrefixOf p b

/-- `p in b`: contiguous-subsequence membership, as Python `in` on bytes. -/
def containsSeq : Bytes → Bytes → Bool
  | [], p => List.isPrefixOf p []
  | b@(_ :: t), p => List.isPrefixOf p b || containsSeq t p

/-- Python `str.strip()` (restricted to ASCII whitespace). -/
def pyStrip (s : String) : String :=
  String.mk (((s.data.dropWhile isWSChar).reverse.dropWhile isWSChar).reverse)

/-- Python `str.replace(pat, rep)` on character lists: replace every
non-overlapping occurrence, left to right.  The fuel argument (instantiated
with the input length, enough for any nonempty pattern) keeps the recursion
structural; the `pat = ""` edge case is not used by the script. -/
def replaceAllAux (pat rep : List Char) : Nat → List Char → List Char
  | 0, l => l
  | fuel + 1, l =>
    match l with
    | [] => []
    | c :: rest =>
      if pat.isPrefixOf l then rep ++ replaceAllAux pat rep fuel (l.drop pat.length)
      else c :: replaceAllAux pat rep fuel rest

/-- `str.replace` lifted to `String`. -/
def pyReplace (s pat rep : String) : String :=
  String.mk (replaceAllAux pat.data rep.data s.data.length s.data)

/-! ## XML element model (`xml.etree.ElementTree`)

An `ET.Element` as the script uses it: a tag (namespace-qualified tags are
stored Clark-style, `{uri}name`, exactly as ElementTree does), an attribute
dictionary, the element text, and the child elements in document order. -/

structure XElem where
  tag : String
  attrib : List (String × String)
  textRaw : Option String
  children : List XElem

/-- `el.find(tag)`: first direct child with the given tag, if any. -/
def findE (e : XElem) (t : String) : Option XElem :=
  e.children.find? (fun c => c.tag == t)

/-- `el.findall(tag)`: all direct children with the given tag, in order. -/
def findallE (e : XElem) (t : String) : List XElem :=
  e.children.filter (fun c => c.tag == t)

/-- `el.attrib.get(k, d)`. -/
def attribGet (e : XElem) (k d : String) : String :=
  match e.attrib.find? (fun kv => kv.1 == k) with
  | some kv => kv.2
  | none => d

/-- `text(el)` from the script: `""` for a missing element or missing text,
otherwise the stripped element text. -/
def textOf (o : Option XElem) : String :=
  match o with
  | none => ""
  | some e =>
    match e.textRaw with
    | none => ""
    | some s => pyStrip s

/-! ## Cover image extraction (`extract_cover_image`)

The script looks for the first match of the regex
`<img[^>]+src=["\']([^"\']+)["\']` in the `content:encoded` HTML body.
`imgSearch` implements `re.search` for exactly this pattern: the leftmost
starting position wins, and at a given start the greedy `[^>]+` takes the
longest viable prefix (backtracking from the maximal run of non-`>`
characters). -/

/-- The double-quote character. -/
def dquote : Char := Char.ofNat 34

/-- The single-quote character. -/
def squote : Char := Char.ofNat 39

/-- A character matching the regex class `["\']`. -/
def isQuoteChar (c : Char) : Bool := c == dquote || c == squote

/-- Match `src=["\']([^"\']+)["\']` at the head of `t`, returning the capture. -/
def matchSrcAt (t : List Char) : Option (List Char) :=
  if List.isPrefixOf "src=".data t then
    match t.drop 4 with
    | [] => none
    | q :: rest =>
      if isQuoteChar q then
        let cap := rest.takeWhile (fun c => !isQuoteChar c)
        if cap ≠ [] then
          match rest.drop cap.length with
          | [] => none
          | q2 :: _ => if isQuoteChar q2 then some cap else none
        else none
      else none
  else none

/-- Backtracking over the greedy `[^>]+`: try consuming `k` characters of the
non-`>` run for `k = n, n-1, ..., 1` and hand the remainder to `matchSrcAt`. -/
def tryGreedy (rest : List Char) : Nat → Option (List Char)
  | 0 => none
  | k + 1 =>
    match matchSrcAt (rest.drop (k + 1)) with
    | some cap => some cap
    | none => tryGreedy rest k

/-- Match the whole pattern anchored at the head of `l`. -/
def matchImgAt (l : List Char) : Option (List Char) :=
  if List.isPrefixOf "<img".data l then
    let rest := l.drop 4
    tryGreedy rest ((rest.takeWhile (fun c => c ≠ '>')).length)
  else none

/-- `re.search` for the cover-image pattern: leftmost match, capture group 1. -/
def imgSearch : List Char → Option (List Char)
  | [] => none
  | l@(_ :: t) =>
    match matchImgAt l with
    | some cap => some cap
    | none => imgSearch t

/-- Clark-style tag of `content:encoded`. -/
def contentEncodedTag : String :=
  "\x7bhttp://purl.org/rss/1.0/modules/content/\x7dencoded"

/-- The `content:encoded` fallback of `extract_cover_image`: the first
`<img ... src>` URL in the content HTML, else `""`. -/
def coverFromContent (item : XElem) : String :=
  match findE item contentEncodedTag with
  | none => ""
  | some ce =>
    match ce.textRaw with
    | none => ""
    | some t =>
      if t ≠ "" then
        match imgSearch t.data with
        | some cap => String.mk cap
        | none => ""
      else ""

/-- `extract_cover_image(item)`: enclosure `url` attribute (stripped) when
present and non-empty after stripping, else the first image of the
content-encoded body, else `""`. -/
def extract_cover_image (item : XElem) : String :=
  match findE item "enclosure" with
  | some enc =>
    let url := pyStrip (attribGet enc "url" "")
    if url ≠ "" then url else coverFromContent item
  | none => coverFromContent item

/-! ## Dates (`parse_pubdate`)

`parse_pubdate` feeds the pubDate string to
`email.utils.parsedate_to_datetime`, attaches UTC when the result is naive,
converts to UTC with `astimezone`, and renders with `isoformat()`; any
exception yields `""`.  The stdlib RFC-2822 parser is modelled as a parameter
`pd : String → Option PDT` returning the raw parsed fields (`none` when the
string is unparsable).  The `datetime`/`timezone` constructor validation that
`parsedate_to_datetime` performs — which raises on out-of-range fields, caught
by `parse_pubdate` — is `dtFieldsOk`/`tzOk` below, and the bounded `astimezone`
arithmetic (offsets are strictly less than 24 hours, so the date rolls by at
most one day) is `toUTC`. -/

/-- Raw fields handed back by `parsedate_to_datetime` before any conversion:
calendar fields plus the zone offset in seconds (`none` = naive datetime). -/
structure PDT where
  year : Nat
  month : Nat
  day : Nat
  hour : Nat
  minute : Nat
  second : Nat
  tzSeconds : Option Int

/-- Gregorian leap-year test (as `datetime` uses). -/
def isLeap (y : Nat) : Bool := (y % 4 == 0 && y % 100 != 0) || y % 400 == 0

/-- Days in a month of a given year. -/
def daysInMonth (y m : Nat) : Nat :=
  if m == 2 then (if isLeap y then 29 else 28)
  else if m == 4 || m == 6 || m == 9 || m == 11 then 30
  else 31

/-- The range checks of the `datetime(...)` constructor. -/
def dtFieldsOk (p : PDT) : Bool :=
  1 ≤ p.year && p.year ≤ 9999 && 1 ≤ p.month && p.month ≤ 12 &&
  1 ≤ p.day && p.day ≤ daysInMonth p.year p.month &&
  p.hour ≤ 23 && p.minute ≤ 59 && p.second ≤ 59

/-- The range check of the `timezone(timedelta(seconds=z))` constructor:
strictly between -24h and +24h. -/
def tzOk : Option Int → Bool
  | none => true
  | some z => -86400 < z && z < 86400

/-- A UTC datetime (what `astimezone(timezone.utc)` yields). -/
structure UTCDT where
  year : Nat
  month : Nat
  day : Nat
  hour : Nat
  minute : Nat
  second : Nat

/-- Calendar validity of a UTC datetime. -/
def utcOk (u : UTCDT) : Bool :=
  1 ≤ u.year && u.year ≤ 9999 && 1 ≤ u.month && u.month ≤ 12 &&
  1 ≤ u.day && u.day ≤ daysInMonth u.year u.month &&
  u.hour ≤ 23 && u.minute ≤ 59 && u.second ≤ 59

/-- Next calendar day. -/
def nextDay (y m d : Nat) : Nat × Nat × Nat :=
  if d < daysInMonth y m then (y, m, d + 1)
  else if m < 12 then (y, m + 1, 1)
  else (y + 1, 1, 1)

/-- Previous calendar day. -/
def prevDay (y m d : Nat) : Nat × Nat × Nat :=
  if 1 < d then (y, m, d - 1)
  else if 1 < m then (y, m - 1, daysInMonth y (m - 1))
  else (y - 1, 12, 31)

/-- The seconds-since-midnight of the UTC instant, offset-adjusted: since the
offset is strictly within ±24h, the adjusted value needs at most one day of
carry. -/
def rollTime (t : Int) : Int :=
  if t < 0 then t + 86400 else if 86400 ≤ t then t - 86400 else t

/-- The calendar date of the UTC instant: unchanged, or one day earlier or
later, matching the carry of `rollTime`. -/
def rollDate (p : PDT) (t : Int) : Nat × Nat × Nat :=
  if t < 0 then prevDay p.year p.month p.day
  else if 86400 ≤ t then nextDay p.year p.month p.day
  else (p.year, p.month, p.day)

/-- The offset-adjusted seconds-since-midnight before the day carry. -/
def adjSeconds (p : PDT) : Int :=
  (p.hour : Int) * 3600 + (p.minute : Int) * 60 + (p.second : Int) -
    p.tzSeconds.getD 0

/-- `dt.astimezone(timezone.utc)` for a datetime whose offset is strictly
within ±24h: subtract the offset from the time of day, rolling the date by at
most one day; `none` models the `OverflowError` raised when the result leaves
the `datetime` year range `[1, 9999]` (and, for uniformity, the constructor
errors checked by `dtFieldsOk`/`tzOk`, all of which `parse_pubdate` catches). -/
def toUTC (p : PDT) : Option UTCDT :=
  if dtFieldsOk p && tzOk p.tzSeconds then
    let t : Int := adjSeconds p
    let y := (rollDate p t).1
    let m := (rollDate p t).2.1
    let d := (rollDate p t).2.2
    let t2 := (rollTime t).toNat
    if 1 ≤ y && y ≤ 9999 then
      some ⟨y, m, d, t2 / 3600, t2 / 60 % 60, t2 % 60⟩
    else none
  else none

/-- The digit character of `d % 10`. -/
def digitChar (d : Nat) : Char := Char.ofNat (48 + d % 10)

/-- Zero-padded two-digit rendering (`%02d` for values below 100). -/
def pad2 (n : Nat) : List Char := [digitChar (n / 10), digitChar n]

/-- Zero-padded four-digit rendering (`%04d` for values below 10000). -/
def pad4 (n : Nat) : List Char :=
  [digitChar (n / 1000), digitChar (n / 100), digitChar (n / 10), digitChar n]

/-- `datetime.isoformat()` for an aware UTC datetime with whole seconds:
`YYYY-MM-DDTHH:MM:SS+00:00`. -/
def isoUTC (u : UTCDT) : String :=
  String.mk (pad4 u.year ++ '-' :: pad2 u.month ++ '-' :: pad2 u.day ++
    'T' :: pad2 u.hour ++ ':' :: pad2 u.minute ++ ':' :: pad2 u.second ++
    "+00:00".data)

/-- `parse_pubdate(pubdate)`, parameterized by the stdlib RFC-2822 parser
`pd` (modelling `email.utils.parsedate_to_datetime`; `none` = unparsable). -/
def parse_pubdate (pd : String → Option PDT) (pubdate : String) : String :=
  if pubdate = "" then ""
  else
    match pd pubdate with
    | none => ""
    | some p =>
      match toUTC p with
      | none => ""
      | some u => isoUTC u

/-- A string is a valid UTC ISO-8601 timestamp when it is the `isoformat`
rendering of some calendar-valid UTC datetime. -/
def ValidUTCISO (s : String) : Prop :=
  ∃ u : UTCDT, utcOk u = true ∧ isoUTC u = s

/-! ## JSON values and the snapshot data model -/

/-- A decoded JSON value (what `json.loads` can return).  Numbers are
modelled as integers; the archive fields the script touches are strings,
nulls, or absent. -/
inductive JVal where
  | null
  | bool (b : Bool)
  | num (n : Int)
  | str (s : String)
  | arr (xs : List JVal)
  | obj (kvs : List (String × JVal))

/-- Python truthiness of a decoded JSON value. -/
def truthy : JVal → Bool
  | .null => false
  | .bool b => b
  | .num n => n != 0
  | .str s => s ≠ ""
  | .arr xs => !xs.isEmpty
  | .obj kvs => !kvs.isEmpty

/-- `d.get(k)` on a decoded JSON object: the value, or `None` when absent. -/
def jget (kvs : List (String × JVal)) (k : String) : JVal :=
  match kvs.find? (fun kv => kv.1 == k) with
  | some kv => kv.2
  | none => .null

/-- Python `str(v)` as used by the f-string interpolation of the slug.  The
script only ever interpolates strings in practice; the other constructors
follow Python's rendering in shape (container rendering is schematic, and no
verified property depends on it). -/
def pyRender : JVal → String
  | .null => "None"
  | .bool b => if b then "True" else "False"
  | .num n => toString n
  | .str s => s
  | .arr _ => "[...]"
  | .obj _ => "{...}"

/-- One normalized post record.  Field values are decoded-JSON values: the
RSS/Atom paths always store strings, while `parse_archive` copies whatever
truthy value the archive object held. -/
structure Post where
  title : JVal
  subtitle : JVal
  url : JVal
  date : JVal
  cover_image : JVal

/-- The feed snapshot assembled by the parsers (`feed_title`/`feed_url` are
absent on the Atom path). -/
structure Snapshot where
  source : String
  feed_title : Option String
  feed_url : Option String
  updated_at : String
  posts : List Post

/-- `FEED_URL`. -/
def FEED_URL : String := "https://drinkyouroj.substack.com/feed"

/-- `ARCHIVE_URL_TEMPLATE.format(limit=limit)`. -/
def archiveUrl (limit : Nat) : String :=
  "https://drinkyouroj.substack.com/api/v1/archive?limit=" ++ toString limit

/-- `JINA_PROXY_TEMPLATE.format(url=u)`. -/
def jinaProxy (u : String) : String := "https://r.jina.ai/http://" ++ u

/-! ## Normalizer: `parse_rss` and `parse_archive` -/

/-- Clark-style Atom tags. -/
def atomTag (name : String) : String :=
  "\x7bhttp://www.w3.org/2005/Atom\x7d" ++ name

/-- The post built from one Atom `entry` element. -/
def atomPost (e : XElem) : Post :=
  let title := textOf (findE e (atomTag "title"))
  let url :=
    pyStrip (match findE e (atomTag "link") with
      | some linkEl => attribGet linkEl "href" ""
      | none => "")
  let updated := textOf (findE e (atomTag "updated"))
  let summary := textOf (findE e (atomTag "summary"))
  { title := .str title, subtitle := .str summary, url := .str url,
    date := .str updated, cover_image := .str "" }

/-- The post built from one RSS 2.0 `item` element. -/
def rssPost (pd : String → Option PDT) (it : XElem) : Post :=
  { title := .str (textOf (findE it "title")),
    subtitle := .str (textOf (findE it "description")),
    url := .str (textOf (findE it "link")),
    date := .str (parse_pubdate pd (textOf (findE it "pubDate"))),
    cover_image := .str (extract_cover_image it) }

/-- `parse_rss` applied to an already-decoded XML root (`ET.fromstring` is a
separate parameter of the orchestrator model).  `pd` models
`email.utils.parsedate_to_datetime`, `now` the `now_iso()` timestamp. -/
def parse_rss (pd : String → Option PDT) (now : String) (root : XElem)
    (limit : Nat) : Snapshot :=
  match findE root "channel" with
  | none =>
    let entries := findallE root (atomTag "entry")
    { source := FEED_URL, feed_title := none, feed_url := none,
      updated_at := now, posts := (entries.take limit).map atomPost }
  | some channel =>
    let title := textOf (findE channel "title")
    let link := textOf (findE channel "link")
    let items := findallE channel "item"
    { source := FEED_URL, feed_title := some title, feed_url := some link,
      updated_at := now, posts := (items.take limit).map (rssPost pd) }

/-- The post built from one JSON archive object (`it.get(...)` fallbacks). -/
def archivePost (it : List (String × JVal)) : Post :=
  let title := if truthy (jget it "title") then jget it "title" else .str "Untitled"
  let subtitle :=
    if truthy (jget it "subtitle") then jget it "subtitle"
    else if truthy (jget it "description") then jget it "description"
    else .str ""
  let url0 := if truthy (jget it "canonical_url") then jget it "canonical_url" else .str ""
  let url :=
    if !truthy url0 && truthy (jget it "slug") then
      JVal.str ("https://drinkyouroj.substack.com/p/" ++ pyRender (jget it "slug"))
    else url0
  let date := if truthy (jget it "post_date") then jget it "post_date" else .str ""
  let cover := if truthy (jget it "cover_image") then jget it "cover_image" else .str ""
  { title := title, subtitle := subtitle, url := url, date := date,
    cover_image := cover }

/-- Errors of the pipeline, carrying the cause the script reports. -/
inductive Err where
  | httpForbidden
  | curlFail (rc : Nat)
  | cloudflarePage
  | notXmlJson
  | timedOut
  | jsonDecode
  | xmlDecode
  | typeErr
  | attrErr
  | allFailed
  deriving DecidableEq

/-- Build the archive posts of the sliced items; a non-object item raises
`AttributeError` at `it.get(...)`. -/
def archivePosts : List JVal → Except Err (List Post)
  | [] => .ok []
  | .obj kvs :: rest =>
    match archivePosts rest with
    | .ok ps => .ok (archivePost kvs :: ps)
    | .error e => .error e
  | _ :: _ => .error .attrErr

/-- `parse_archive` applied to an already-decoded JSON value.  Slicing
`items[:limit]` requires a list: a top-level object raises `TypeError` at the
slice (dict indices cannot be slices), and no other top-level value is ever
routed here by the byte sniffing (`{`/`[` only). -/
def parse_archive (now : String) (v : JVal) (limit : Nat) :
    Except Err Snapshot :=
  match v with
  | .arr items =>
    match archivePosts (items.take limit) with
    | .error e => .error e
    | .ok posts =>
      .ok { source := archiveUrl limit, feed_title := some "The Civic Node",
            feed_url := some "https://drinkyouroj.substack.com",
            updated_at := now, posts := posts }
  | _ => .error .typeErr

/-! ## Writer (`write_json`)

Filesystem paths are component lists; the effect of `write_json` is the
ordered trace of filesystem operations it performs, interpreted over a map
from paths to file contents. -/

/-- A filesystem path as its components. -/
abbrev FPath := List String

/-- Index of the last `'.'` in a file name that does not sit at position 0
(a leading dot marks a hidden file and is not a suffix separator in
`pathlib`). -/
def lastDotIdx (cs : List Char) : Option Nat :=
  ((List.range cs.length).filter
      (fun i => decide (1 ≤ i) && (cs.get? i == some '.'))).getLast?

/-- `PurePath.suffix` of a file name. -/
def nameSuffix (n : String) : String :=
  match lastDotIdx n.data with
  | none => ""
  | some i => String.mk (n.data.drop i)

/-- `PurePath.stem` of a file name. -/
def nameStem (n : String) : String :=
  match lastDotIdx n.data with
  | none => n
  | some i => String.mk (n.data.take i)

/-- `path.with_suffix(".tmp")`: replace (or append, when there is none) the
suffix of the final component. -/
def withSuffixTmp (p : FPath) : FPath :=
  let n := (p.getLast?).getD ""
  p.dropLast ++ [nameStem n ++ ".tmp"]

/-- One filesystem operation performed by the writer. -/
inductive FSOp where
  | mkdirp (dir : FPath)
  | writeFile (p : FPath) (content : String)
  | rename (src dst : FPath)

/-- `json.dumps` of a decoded JSON value.  Rendering details (indentation,
string escaping) are schematic; no verified property inspects the rendered
text beyond it being the serialization of the snapshot passed in. -/
def dumps : JVal → String
  | .null => "null"
  | .bool b => if b then "true" else "false"
  | .num n => toString n
  | .str s => "\"" ++ s ++ "\""
  | .arr xs => "[" ++ String.intercalate ", " (xs.attach.map (fun x => dumps x.1)) ++ "]"
  | .obj kvs =>
    "\x7b" ++ String.intercalate ", "
      (kvs.attach.map (fun kv => "\"" ++ kv.1.1 ++ "\": " ++ dumps kv.1.2)) ++ "\x7d"
decreasing_by
  · have := List.sizeOf_lt_of_mem x.2
    simp only [JVal.arr.sizeOf_spec]
    omega
  · have := List.sizeOf_lt_of_mem kv.2
    have h2 : sizeOf kv.1.2 < sizeOf kv.1 := by
      rcases kv.1 with ⟨a, b⟩
      simp
    simp only [JVal.obj.sizeOf_spec]
    omega

/-- The JSON object serialized for a snapshot (insertion order of the dict
literals in the script). -/
def snapshotJson (s : Snapshot) : JVal :=
  .obj ([("source", .str s.source)] ++
    (match s.feed_title with | some t => [("feed_title", JVal.str t)] | none => []) ++
    (match s.feed_url with | some u => [("feed_url", JVal.str u)] | none => []) ++
    [("updated_at", .str s.updated_at),
     ("posts", .arr (s.posts.map (fun p =>
       .obj [("title", p.title), ("subtitle", p.subtitle), ("url", p.url),
             ("date", p.date), ("cover_image", p.cover_image)])))])

/-- The serialized file body: `json.dumps(data, ...) + "\n"`. -/
def serializeSnapshot (s : Snapshot) : String := dumps (snapshotJson s) ++ "\n"

/-- `write_json(path, data)`: ensure the parent directory, write the
serialization to the sibling `.tmp` path, rename it over the destination. -/
def write_json (path : FPath) (data : Snapshot) : List FSOp :=
  [.mkdirp path.dropLast,
   .writeFile (withSuffixTmp path) (serializeSnapshot data),
   .rename (withSuffixTmp path) path]

/-- A filesystem: file contents by path (directories are not tracked; `mkdir`
does not touch any file). -/
def FS := FPath → Option String

/-- Interpret one filesystem operation.  `rename` is `Path.replace`
(`os.replace`): the destination takes the source's content, the source
disappears. -/
def applyOp (fs : FS) : FSOp → FS
  | .mkdirp _ => fs
  | .writeFile p c => fun q => if q = p then some c else fs q
  | .rename src dst => fun q =>
    if q = dst then fs src else if q = src then none else fs q

/-- Interpret a trace of filesystem operations in order. -/
def applyOps (fs : FS) (ops : List FSOp) : FS := ops.foldl applyOp fs

/-- `OUT_PATH` relative to the repository root. -/
def OUT_PATH : FPath := ["assets", "substack.json"]

/-! ## Transport (`fetch`)

One curl attempt either times out (`subprocess.TimeoutExpired`) or completes
with an exit code, a flag for whether stderr contains `"403"`, and the stdout
bytes.  The sequence of attempt outcomes and the per-attempt jitter
(`random.random() * 2`, a value in `[0, 2)`) are parameters; sleeps are
returned as the trace of slept durations (in seconds, idealized as
rationals). -/

inductive CurlRes where
  | timeout
  | done (rc : Nat) (errHas403 : Bool) (stdout : Bytes)

/-- The body-shape checks of `fetch` that mark a completed response as a
Cloudflare challenge page. -/
def looksLikeChallenge (data : Bytes) : Bool :=
  startsWithB data (bytesOf "<!DOCTYPE") || startsWithB data (bytesOf "<html") ||
    containsSeq data (bytesOf "Just a moment")

/-- The accepted payload shapes: after `lstrip`, the body starts with
`<?xml`, `<rss`, `<feed`, `{`, or `[`. -/
def looksXmlJson (data : Bytes) : Bool :=
  let s := lstripB data
  startsWithB s (bytesOf "<?xml") || startsWithB s (bytesOf "<rss") ||
    startsWithB s (bytesOf "<feed") || startsWithB s (bytesOf "\x7b") ||
    startsWithB s (bytesOf "[")

/-- One failure step of the retry loop: when later attempts remain (`fuel`
nonzero) sleep `w` seconds and continue with the rest of the loop `r`;
otherwise raise `e` (no sleep after the final attempt). -/
def retryStep (w : ℚ) (e : Err) (fuel : Nat)
    (r : Except Err Bytes × List ℚ) : Except Err Bytes × List ℚ :=
  if fuel = 0 then (.error e, []) else (r.1, w :: r.2)

/-- The retry loop of `fetch`, from attempt `i` with `fuel = max_retries - i`
iterations left.  Returns the result together with the trace of sleep
durations.  On attempt `i` every failure path of the loop body either sleeps
`2^i + jitter i` and retries (when later attempts remain) or raises. -/
def fetchAux (env : Nat → CurlRes) (jitter : Nat → ℚ) :
    Nat → Nat → Option Err → Except Err Bytes × List ℚ
  | _, 0, lastE => (.error (lastE.getD .allFailed), [])
  | i, fuel + 1, lastE =>
    match env i with
    | .timeout =>
      retryStep (2 ^ i + jitter i) .timedOut fuel
        (fetchAux env jitter (i + 1) fuel (some .timedOut))
    | .done rc h403 data =>
      if rc ≠ 0 then
        if h403 || rc == 22 then
          retryStep (2 ^ i + jitter i) .httpForbidden fuel
            (fetchAux env jitter (i + 1) fuel lastE)
        else
          retryStep (2 ^ i + jitter i) (.curlFail rc) fuel
            (fetchAux env jitter (i + 1) fuel (some (.curlFail rc)))
      else if looksLikeChallenge data then
        retryStep (2 ^ i + jitter i) .cloudflarePage fuel
          (fetchAux env jitter (i + 1) fuel lastE)
      else if !looksXmlJson data then
        retryStep (2 ^ i + jitter i) .notXmlJson fuel
          (fetchAux env jitter (i + 1) fuel lastE)
      else (.ok data, [])

/-- `fetch(url, max_retries)` for one URL: the per-URL attempt outcomes and
jitters are `env`/`jitter`. -/
def fetch (env : Nat → CurlRes) (jitter : Nat → ℚ) (maxRetries : Nat) :
    Except Err Bytes × List ℚ :=
  fetchAux env jitter 0 maxRetries none

/-! ## Orchestrator (`main`)

External effects are parameters: `fetchF` is the transport (per-candidate
fetch result), `dj` models `json.loads`, `dx` models `ET.fromstring`, `pd`
models `parsedate_to_datetime`, and `now` the generation timestamp.  The
result records the exit code, the filesystem trace performed, the surfaced
error (the message printed to stderr on failure), and the snapshot written. -/

/-- The bundled external dependencies of one run. -/
structure Env where
  fetchF : String → Except Err Bytes
  dj : Bytes → Except Err JVal
  dx : Bytes → Except Err XElem
  pd : String → Option PDT
  now : String

/-- The candidate list built by `main` (limit 6). -/
def candidates : List String :=
  [archiveUrl 6,
   jinaProxy (pyReplace (archiveUrl 6) "https://" ""),
   FEED_URL,
   jinaProxy (pyReplace FEED_URL "https://" "")]

/-- Sniff: does the lstripped payload start with `[` or `{`? -/
def sniffJson (payload : Bytes) : Bool :=
  let s := lstripB payload
  startsWithB s (bytesOf "[") || startsWithB s (bytesOf "\x7b")

/-- Sniff: does the lstripped payload start with `<?xml`, `<rss`, or `<feed`? -/
def sniffXml (payload : Bytes) : Bool :=
  let s := lstripB payload
  startsWithB s (bytesOf "<?xml") || startsWithB s (bytesOf "<rss") ||
    startsWithB s (bytesOf "<feed")

/-- `parse_archive(payload, limit=6)` from raw bytes: decode, then normalize. -/
def parseArchiveBytes (env : Env) (payload : Bytes) : Except Err Snapshot :=
  match env.dj payload with
  | .error e => .error e
  | .ok v => parse_archive env.now v 6

/-- `parse_rss(payload, limit=6)` from raw bytes: decode, then normalize. -/
def parseRssBytes (env : Env) (payload : Bytes) : Except Err Snapshot :=
  match env.dx payload with
  | .error e => .error e
  | .ok root => .ok (parse_rss env.pd env.now root 6)

/-- The candidate loop of `main`: any exception from a candidate's fetch or
parse is recorded as `last_error` and the next candidate is tried; a payload
matching neither sniff falls through silently (no error recorded, no break).
Returns the parsed snapshot (if any) and the final `last_error`. -/
def tryCandidates (env : Env) : List String → Option Err →
    Option Snapshot × Option Err
  | [], lastE => (none, lastE)
  | url :: rest, lastE =>
    match env.fetchF url with
    | .error e => tryCandidates env rest (some e)
    | .ok payload =>
      if sniffJson payload then
        match parseArchiveBytes env payload with
        | .ok d => (some d, lastE)
        | .error e => tryCandidates env rest (some e)
      else if sniffXml payload then
        match parseRssBytes env payload with
        | .ok d => (some d, lastE)
        | .error e => tryCandidates env rest (some e)
      else tryCandidates env rest lastE

/-- The observable outcome of one run of `main`. -/
structure MainRes where
  exitCode : Nat
  fsTrace : List FSOp
  surfaced : Option Err
  written : Option Snapshot

/-- `main()`: try the candidates in order; on the first success write the
snapshot atomically and exit 0; if none succeeded, surface the last error
(or the generic all-failed error) and exit 1 without touching the output. -/
def main (env : Env) : MainRes :=
  match tryCandidates env candidates none with
  | (some d, _) =>
    { exitCode := 0, fsTrace := write_json OUT_PATH d, surfaced := none,
      written := some d }
  | (none, lastE) =>
    { exitCode := 1, fsTrace := [], surfaced := some (lastE.getD .allFailed),
      written := none }

/-- The outcome of one candidate in isolation: `some s` when its fetch and
parse both succeed with snapshot `s`. -/
def attemptOf (env : Env) (url : String) : Option Snapshot :=
  match env.fetchF url with
  | .error _ => none
  | .ok payload =>
    if sniffJson payload then (parseArchiveBytes env payload).toOption
    else if sniffXml payload then (parseRssBytes env payload).toOption
    else none

/-- The error one candidate contributes to `last_error`: a fetch error or a
parse error (`none` for a success or a silently skipped unsniffable payload). -/
def errOf (env : Env) (url : String) : Option Err :=
  match env.fetchF url with
  | .error e => some e
  | .ok payload =>
    if sniffJson payload then
      match parseArchiveBytes env payload with
      | .ok _ => none
      | .error e => some e
    else if sniffXml payload then
      match parseRssBytes env payload with
      | .ok _ => none
      | .error e => some e
    else none

/-! ## Spec-side definitions

Definitions transcribed from the specification's wording (not from the code),
used to state refinement-style claims.  Each is compared against the
corresponding implementation definition by a theorem. -/

/-- Spec wording for the content-encoded fallback of the cover image: "the
`src` value of the first `<img>` tag occurring in the item's content-encoded
HTML body", else the empty string. -/
def specContentImg (item : XElem) : String :=
  match findE item contentEncodedTag with
  | none => ""
  | some ce =>
    match ce.textRaw with
    | none => ""
    | some t =>
      match imgSearch t.data with
      | some cap => String.mk cap
      | none => ""

/-- The amended cover-image rule: the enclosure `url` attribute, stripped of
surrounding whitespace, when the element is present and the stripped value is
non-empty; otherwise the first content-encoded image; otherwise `""`. -/
def specCoverImage (item : XElem) : String :=
  match findE item "enclosure" with
  | some enc =>
    if pyStrip (attribGet enc "url" "") ≠ "" then pyStrip (attribGet enc "url" "")
    else specContentImg item
  | none => specContentImg item

/-- Spec wording for the archive title: "the object's title field unless that
field is absent or falsy, in which case `Untitled`". -/
def specArchiveTitle (it : List (String × JVal)) : JVal :=
  if truthy (jget it "title") then jget it "title" else .str "Untitled"

/-- Spec wording for the archive subtitle: "the first truthy value among the
`subtitle` and `description` fields, else empty string". -/
def specArchiveSubtitle (it : List (String × JVal)) : JVal :=
  if truthy (jget it "subtitle") then jget it "subtitle"
  else if truthy (jget it "description") then jget it "description"
  else .str ""

/-- Spec wording for the archive url: "the `canonical_url` field if truthy,
else `https://drinkyouroj.substack.com/p/{slug}` when a truthy slug field is
present, else empty string". -/
def specArchiveUrl (it : List (String × JVal)) : JVal :=
  if truthy (jget it "canonical_url") then jget it "canonical_url"
  else if truthy (jget it "slug") then
    .str ("https://drinkyouroj.substack.com/p/" ++ pyRender (jget it "slug"))
  else .str ""

/-! ## Concrete sample inputs -/

/-- An RSS item whose enclosure `url` attribute is non-empty but padded with
whitespace. -/
def itemWsEnclosure : XElem :=
  ⟨"item", [], none, [⟨"enclosure", [("url", " x ")], none, []⟩]⟩

/-- Sample scenario 1: an RSS item with `<enclosure url="https://x/img.png"/>`
and no other cover source. -/
def itemEnclosure : XElem :=
  ⟨"item", [], none, [⟨"enclosure", [("url", "https://x/img.png")], none, []⟩]⟩

/-- Sample scenario 2: an RSS item with no enclosure whose content-encoded
body contains an image tag. -/
def itemContentImg : XElem :=
  ⟨"item", [], none,
   [⟨contentEncodedTag, [],
     some "<p>no</p><img class=\"pic\" src=\"https://y/pic.jpg\">", []⟩]⟩

/-- An Atom feed (no `channel` child) with one entry whose `updated` text is
not a date. -/
def atomRootGarbage : XElem :=
  ⟨atomTag "feed", [], none,
   [⟨atomTag "entry", [], none,
     [⟨atomTag "updated", [], some "garbage", []⟩]⟩]⟩

/-- A two-item RSS channel under an `rss` root. -/
def sampleChannel : XElem :=
  ⟨"channel", [],  none,
   [⟨"title", [], some "The Civic Node", []⟩,
    ⟨"link", [], some "https://drinkyouroj.substack.com", []⟩,
    ⟨"item", [], none, [⟨"title", [], some "A", []⟩]⟩,
    ⟨"item", [], none, [⟨"title", [], some "B", []⟩]⟩]⟩

/-- The corresponding RSS root element. -/
def sampleRssRoot : XElem := ⟨"rss", [], none, [sampleChannel]⟩

/-- Sample scenario 3: the JSON archive object with a null title and a slug. -/
def archiveItemNullTitle : List (String × JVal) :=
  [("title", .null), ("slug", .str "foo")]

/-- An environment in which every curl attempt times out. -/
def envAllFail : Env :=
  { fetchF := fun _ => .error .timedOut,
    dj := fun _ => .error .jsonDecode,
    dx := fun _ => .error .xmlDecode,
    pd := fun _ => none,
    now := "T" }

/-- An environment in which only the proxied archive candidate responds, with
an (empty) JSON archive payload. -/
def envProxyWins : Env :=
  { fetchF := fun u =>
      if u = jinaProxy (pyReplace (archiveUrl 6) "https://" "") then
        .ok (bytesOf "[]")
      else .error .timedOut,
    dj := fun _ => .ok (.arr []),
    dx := fun _ => .error .xmlDecode,
    pd := fun _ => none,
    now := "T" }

/-- An environment in which the first candidate returns a JSON object (not a
list) and the second candidate fails to fetch. -/
def envObjectPayload : Env :=
  { fetchF := fun u =>
      if u = archiveUrl 6 then .ok (bytesOf "\x7b\x7d") else .error .timedOut,
    dj := fun _ => .ok (.obj []),
    dx := fun _ => .error .xmlDecode,
    pd := fun _ => none,
    now := "T" }

/-- A trivial snapshot used to exercise the writer. -/
def snapTrivial : Snapshot :=
  { source := "s", feed_title := none, feed_url := none, updated_at := "t",
    posts := [] }

/-- A destination path whose name already carries the `.tmp` suffix. -/
def tmpNamedPath : FPath := ["out.tmp"]

/-- A filesystem holding an old snapshot at `tmpNamedPath`. -/
def fsOld : FS := fun q => if q = tmpNamedPath then some "old" else none

/-! ## Helper lemmas -/

/-- A successful `archivePosts` pairs each sliced item, in order, with the
post built from its object fields. -/
theorem archivePosts_ok {l : List JVal} {ps : List Post}
    (h : archivePosts l = .ok ps) :
    List.Forall₂ (fun it p => ∃ kvs, it = JVal.obj kvs ∧ p = archivePost kvs)
      l ps := by
  induction l generalizing ps with
  | nil =>
    simp only [archivePosts] at h
    cases h
    exact List.Forall₂.nil
  | cons hd tl ih =>
    cases hd with
    | obj kvs =>
      simp only [archivePosts] at h
      cases hrec : archivePosts tl with
      | ok ps2 =>
        rw [hrec] at h
        cases h
        exact List.Forall₂.cons ⟨kvs, rfl, rfl⟩ (ih hrec)
      | error e =>
        rw [hrec] at h
        cases h
    | null =>
      simp only [archivePosts] at h
      exact Except.noConfusion h
    | bool b =>
      simp only [archivePosts] at h
      exact Except.noConfusion h
    | num n =>
      simp only [archivePosts] at h
      exact Except.noConfusion h
    | str s =>
      simp only [archivePosts] at h
      exact Except.noConfusion h
    | arr xs =>
      simp only [archivePosts] at h
      exact Except.noConfusion h

/-! ## Claims -/

/-- C1: every Normalizer path caps its posts list at the limit 6 and
preserves source order: the RSS branch maps the first `min(K, 6)` channel
items, the Atom branch the first `min(K, 6)` entries, and the JSON archive
branch the first `min(K, 6)` array objects, so the posts count is exactly
`min(K, 6)` and never exceeds 6. -/
theorem c1_posts_capped_ordered :
    (∀ pd now root channel, findE root "channel" = some channel →
      (parse_rss pd now root 6).posts =
        ((findallE channel "item").take 6).map (rssPost pd) ∧
      (parse_rss pd now root 6).posts.length =
        min (findallE channel "item").length 6) ∧
    (∀ pd now root, findE root "channel" = none →
      (parse_rss pd now root 6).posts =
        ((findallE root (atomTag "entry")).take 6).map atomPost ∧
      (parse_rss pd now root 6).posts.length =
        min (findallE root (atomTag "entry")).length 6) ∧
    (∀ now items s, parse_archive now (.arr items) 6 = .ok s →
      s.posts.length = min items.length 6 ∧
      List.Forall₂ (fun it p => ∃ kvs, it = JVal.obj kvs ∧ p = archivePost kvs)
        (items.take 6) s.posts) ∧
    (∀ pd now root, (parse_rss pd now root 6).posts.length ≤ 6) := by
  refine ⟨?_, ?_, ?_, ?_⟩
  · intro pd now root channel h
    simp [parse_rss, h, Nat.min_comm]
  · intro pd now root h
    simp [parse_rss, h, Nat.min_comm]
  · intro now items s h
    simp only [parse_archive] at h
    cases hrec : archivePosts (items.take 6) with
    | ok ps =>
      rw [hrec] at h
      cases h
      have h2 := archivePosts_ok hrec
      have hlen := h2.length_eq
      constructor
      · simp only [List.length_take] at hlen
        simp [← hlen, Nat.min_comm]
      · exact h2
    | error e =>
      rw [hrec] at h
      cases h
  · intro pd now root
    cases h : findE root "channel" with
    | none => simp [parse_rss, h]
    | some channel => simp [parse_rss, h]

/-- C1 witness: the two-item sample RSS feed yields exactly
`min(2, 6) = 2` posts. -/
theorem c1_witness :
    (parse_rss (fun _ => none) "T" sampleRssRoot 6).posts.length =
      min (findallE sampleChannel "item").length 6 :=
  (c1_posts_capped_ordered.1 (fun _ => none) "T" sampleRssRoot sampleChannel
    rfl).2

/-- The `if t ≠ ""` guard before the regex search is redundant: searching an
empty body finds nothing. -/
theorem coverFromContent_eq_spec (item : XElem) :
    coverFromContent item = specContentImg item := by
  rcases hfe : findE item contentEncodedTag with _ | ce
  · simp [coverFromContent, specContentImg, hfe]
  · rcases htr : ce.textRaw with _ | t
    · simp [coverFromContent, specContentImg, hfe, htr]
    · by_cases ht : t = ""
      · subst ht
        simp [coverFromContent, specContentImg, hfe, htr]
        rfl
      · simp [coverFromContent, specContentImg, hfe, htr, ht]

/-- C4 counterexample: an item whose enclosure `url` attribute is the
non-empty string `" x "`.  The claim says `cover_image` then equals the
attribute, but the code strips it and returns `"x"`. -/
theorem c4_counterexample :
    (findE itemWsEnclosure "enclosure").isSome = true ∧
    attribGet (⟨"enclosure", [("url", " x ")], none, []⟩ : XElem) "url" "" =
      " x " ∧
    (" x " : String) ≠ "" ∧
    extract_cover_image itemWsEnclosure = "x" ∧
    extract_cover_image itemWsEnclosure ≠ " x " := by
  refine ⟨rfl, rfl, by decide, by decide, by decide⟩

/-- C4 (amended): `cover_image` is the enclosure `url` attribute *stripped of
surrounding whitespace* when the element is present and the stripped value is
non-empty, else the first `<img src>` of the content-encoded body, else `""`;
sample scenarios 1 and 2 evaluate accordingly. -/
theorem c4_cover_fallback :
    (∀ item, extract_cover_image item = specCoverImage item) ∧
    extract_cover_image itemEnclosure = "https://x/img.png" ∧
    extract_cover_image itemContentImg = "https://y/pic.jpg" := by
  refine ⟨?_, by decide, by decide⟩
  intro item
  unfold extract_cover_image specCoverImage
  cases findE item "enclosure" with
  | none => exact coverFromContent_eq_spec item
  | some enc =>
    by_cases h : pyStrip (attribGet enc "url" "") = ""
    · simp [h, coverFromContent_eq_spec]
    · simp [h]

/-- C5: each archive post takes its title from the object's `title` field
with falsy/absent defaulting to `Untitled`, its subtitle as the first truthy
of `subtitle` then `description` else `""`, and its url from `canonical_url`,
else the constructed `/p/{slug}` URL for a truthy slug, else `""`; and
`parse_archive` builds its posts exactly this way from the sliced items.  The
archive object `{"title": null, "slug": "foo"}` yields title `"Untitled"` and
url `https://drinkyouroj.substack.com/p/foo`. -/
theorem c5_archive_field_fallbacks :
    (∀ it, (archivePost it).title = specArchiveTitle it ∧
      (archivePost it).subtitle = specArchiveSubtitle it ∧
      (archivePost it).url = specArchiveUrl it) ∧
    (∀ now items s, parse_archive now (.arr items) 6 = .ok s →
      List.Forall₂ (fun it p => ∃ kvs, it = JVal.obj kvs ∧ p = archivePost kvs)
        (items.take 6) s.posts) ∧
    (archivePost archiveItemNullTitle).title = .str "Untitled" ∧
    (archivePost archiveItemNullTitle).url =
      .str "https://drinkyouroj.substack.com/p/foo" := by
  refine ⟨?_, ?_, rfl, rfl⟩
  · intro it
    refine ⟨rfl, rfl, ?_⟩
    show (if !truthy (if truthy (jget it "canonical_url") then
            jget it "canonical_url" else .str "") && truthy (jget it "slug")
          then JVal.str ("https://drinkyouroj.substack.com/p/" ++
            pyRender (jget it "slug"))
          else if truthy (jget it "canonical_url") then
            jget it "canonical_url" else .str "") = specArchiveUrl it
    unfold specArchiveUrl
    by_cases hc : truthy (jget it "canonical_url")
    · simp [hc]
    · simp only [hc, Bool.false_eq_true, if_false]
      simp [show truthy (JVal.str "") = false from rfl]
  · intro now items s h
    simp only [parse_archive] at h
    cases hrec : archivePosts (items.take 6) with
    | ok ps =>
      rw [hrec] at h
      cases h
      exact archivePosts_ok hrec
    | error e =>
      rw [hrec] at h
      cases h

/-- C10: `parse_archive` errors on a decoded top-level JSON object (the slice
`items[:limit]` raises `TypeError` on a dict), and the orchestrator records
the error and falls through to the next candidate. -/
theorem c10_object_payload_rejected :
    (∀ now kvs limit, parse_archive now (.obj kvs) limit = .error .typeErr) ∧
    (∀ env url rest lastE payload kvs,
      env.fetchF url = .ok payload → sniffJson payload = true →
      env.dj payload = .ok (.obj kvs) →
      tryCandidates env (url :: rest) lastE =
        tryCandidates env rest (some .typeErr)) := by
  constructor
  · intro now kvs limit
    rfl
  · intro env url rest lastE payload kvs hf hs hd
    simp [tryCandidates, hf, hs, parseArchiveBytes, hd, parse_archive]

/-- C10 witness: a concrete environment whose first candidate yields the JSON
object payload `{}`; the orchestrator moves to the remaining candidates with
the `TypeError` recorded. -/
theorem c10_witness :
    parse_archive "T" (.obj []) 6 = .error .typeErr ∧
    tryCandidates envObjectPayload [archiveUrl 6] none =
      tryCandidates envObjectPayload [] (some .typeErr) :=
  ⟨c10_object_payload_rejected.1 "T" [] 6,
   c10_object_payload_rejected.2 envObjectPayload (archiveUrl 6) [] none
     (bytesOf "\x7b\x7d") [] (by simp [envObjectPayload]) (by decide) rfl⟩

/-- A file name is its stem followed by its suffix. -/
theorem stem_append_suffix (n : String) : nameStem n ++ nameSuffix n = n := by
  unfold nameStem nameSuffix
  cases h : lastDotIdx n.data with
  | none => simp
  | some i =>
    show String.mk (n.data.take i) ++ String.mk (n.data.drop i) = n
    rw [show String.mk (n.data.take i) ++ String.mk (n.data.drop i) =
      String.mk (n.data.take i ++ n.data.drop i) from rfl]
    rw [List.take_append_drop]

/-- When the destination's name does not already carry the `.tmp` suffix, the
sibling temporary path is a different path. -/
theorem withSuffixTmp_ne {p : FPath}
    (h : nameSuffix ((p.getLast?).getD "") ≠ ".tmp") : withSuffixTmp p ≠ p := by
  intro heq
  by_cases hp : p = []
  · subst hp
    exact List.noConfusion heq
  · have hlast : p.dropLast ++ [p.getLast hp] = p :=
      List.dropLast_append_getLast hp
    have hget : p.getLast? = some (p.getLast hp) := List.getLast?_eq_getLast p hp
    set n := p.getLast hp with hn
    have hname : nameStem n ++ ".tmp" = n := by
      have := heq.trans hlast.symm
      unfold withSuffixTmp at this
      rw [hget] at this
      simpa using List.append_cancel_left this
    have hsuf : (".tmp" : String) = nameSuffix n := by
      have h2 : nameStem n ++ ".tmp" = nameStem n ++ nameSuffix n := by
        rw [hname, stem_append_suffix]
      have h3 := congrArg String.data h2
      rw [String.data_append, String.data_append] at h3
      exact congrArg String.mk (List.append_cancel_left h3)
    rw [hget] at h
    exact h (by simpa using hsuf.symm)

/-- The serialized file body always ends in a newline, so it never equals the
three-character content `"old"`. -/
theorem append_newline_ne (x : String) : x ++ "\n" ≠ "old" := by
  intro h
  have h2 := congrArg (fun s => s.data.getLast?) h
  simp only [String.data_append] at h2
  rw [List.getLast?_concat] at h2
  simp at h2

/-- C3 counterexample: for a destination path whose name already ends in
`.tmp`, `with_suffix(".tmp")` returns the destination itself, so the
temporary path is not distinct and stopping before the rename has already
clobbered the previous content. -/
theorem c3_counterexample :
    withSuffixTmp tmpNamedPath = tmpNamedPath ∧
    fsOld tmpNamedPath = some "old" ∧
    applyOps fsOld ((write_json tmpNamedPath snapTrivial).take 2)
      tmpNamedPath ≠ some "old" := by
  refine ⟨by decide, rfl, ?_⟩
  have htmp : withSuffixTmp tmpNamedPath = tmpNamedPath := by decide
  show (applyOp (applyOp fsOld (.mkdirp tmpNamedPath.dropLast))
      (.writeFile (withSuffixTmp tmpNamedPath) (serializeSnapshot snapTrivial)))
      tmpNamedPath ≠ some "old"
  rw [htmp]
  simp only [applyOp, if_pos rfl]
  intro h
  exact append_newline_ne (dumps (snapshotJson snapTrivial))
    (Option.some.inj h)

/-- C3 (amended): provided the destination's file name does not already have
suffix `.tmp` (true of the script's actual output path `assets/substack.json`),
`write_json` serializes to a distinct sibling temporary path and changes the
destination only by the single final rename: every strict prefix of the
operation trace leaves the destination's content untouched, while the
temporary file holds the full serialized snapshot before the rename and the
destination holds it after the full trace. -/
theorem c3_atomic_write (p : FPath) (d : Snapshot) (fs0 : FS)
    (h : nameSuffix ((p.getLast?).getD "") ≠ ".tmp") :
    withSuffixTmp p ≠ p ∧
    (∀ k, k ≤ 2 → applyOps fs0 ((write_json p d).take k) p = fs0 p) ∧
    applyOps fs0 ((write_json p d).take 2) (withSuffixTmp p) =
      some (serializeSnapshot d) ∧
    applyOps fs0 (write_json p d) p = some (serializeSnapshot d) := by
  have hne := withSuffixTmp_ne h
  have hne2 : p ≠ withSuffixTmp p := fun hh => hne hh.symm
  refine ⟨hne, ?_, ?_, ?_⟩
  · intro k hk
    interval_cases k
    · rfl
    · rfl
    · show (applyOp (applyOp fs0 (.mkdirp p.dropLast))
        (.writeFile (withSuffixTmp p) (serializeSnapshot d))) p = fs0 p
      simp only [applyOp, if_neg hne2]
  · show (applyOp (applyOp fs0 (.mkdirp p.dropLast))
      (.writeFile (withSuffixTmp p) (serializeSnapshot d)))
      (withSuffixTmp p) = some (serializeSnapshot d)
    simp [applyOp]
  · show (applyOp (applyOp (applyOp fs0 (.mkdirp p.dropLast))
      (.writeFile (withSuffixTmp p) (serializeSnapshot d)))
      (.rename (withSuffixTmp p) p)) p = some (serializeSnapshot d)
    simp [applyOp]

/-- C3 witness: the amended property at the script's actual output path
`assets/substack.json` on an empty filesystem. -/
theorem c3_witness :
    withSuffixTmp OUT_PATH ≠ OUT_PATH ∧
    applyOps (fun _ => none) ((write_json OUT_PATH snapTrivial).take 2)
      OUT_PATH = (fun _ => none : FS) OUT_PATH :=
  ⟨(c3_atomic_write OUT_PATH snapTrivial (fun _ => none) (by decide)).1,
   (c3_atomic_write OUT_PATH snapTrivial (fun _ => none) (by decide)).2.1 2
     (by omega)⟩

/-- Prepending to a list that starts with a fixed element does not change its
last element. -/
theorem getLast?_restart {α : Type} (pre : List α) (a : α) (l : List α) :
    ((a :: l) : List α).getLast? = (pre ++ a :: l).getLast? :=
  (List.getLast?_append_of_ne_nil pre (by simp)).symm

/-- The snapshot produced by the candidate loop is exactly the first
per-candidate success, in candidate order. -/
theorem tryCandidates_fst (env : Env) (cs : List String) (lastE : Option Err) :
    (tryCandidates env cs lastE).1 = cs.findSome? (attemptOf env) := by
  induction cs generalizing lastE with
  | nil => rfl
  | cons u rest ih =>
    rw [List.findSome?_cons]
    cases hf : env.fetchF u with
    | error e =>
      simp only [tryCandidates, hf, attemptOf]
      exact ih (some e)
    | ok payload =>
      by_cases hj : sniffJson payload
      · cases hp : parseArchiveBytes env payload with
        | ok d => simp [tryCandidates, hf, hj, hp, attemptOf, Except.toOption]
        | error e =>
          simp only [tryCandidates, hf, hj, hp, attemptOf, Except.toOption,
            if_true]
          exact ih (some e)
      · by_cases hx : sniffXml payload
        · cases hp : parseRssBytes env payload with
          | ok d => simp [tryCandidates, hf, hj, hx, hp, attemptOf, Except.toOption]
          | error e =>
            simp only [tryCandidates, hf, hj, hx, hp, attemptOf,
              Except.toOption, if_false, if_true, Bool.false_eq_true]
            exact ih (some e)
        · simp only [tryCandidates, hf, hj, hx, attemptOf, Bool.false_eq_true,
            if_false]
          exact ih lastE

/-- When every candidate fails, the final `last_error` of the loop is the
last error encountered (starting from the incoming one). -/
theorem tryCandidates_snd_all_fail (env : Env) (cs : List String)
    (lastE : Option Err) (h : ∀ u ∈ cs, attemptOf env u = none) :
    (tryCandidates env cs lastE).2 =
      (lastE.toList ++ cs.filterMap (errOf env)).getLast? := by
  induction cs generalizing lastE with
  | nil =>
    cases lastE <;> simp [tryCandidates]
  | cons u rest ih =>
    have hu : attemptOf env u = none := h u (by simp)
    have hrest : ∀ v ∈ rest, attemptOf env v = none :=
      fun v hv => h v (by simp [hv])
    cases hf : env.fetchF u with
    | error e =>
      have herr : errOf env u = some e := by simp [errOf, hf]
      have hstep : (tryCandidates env (u :: rest) lastE).2 =
          (tryCandidates env rest (some e)).2 := by
        simp [tryCandidates, hf]
      rw [hstep, ih (some e) hrest, List.filterMap_cons, herr]
      simp only [Option.toList, List.singleton_append]
      exact getLast?_restart _ e _
    | ok payload =>
      by_cases hj : sniffJson payload
      · cases hp : parseArchiveBytes env payload with
        | ok d =>
          exfalso
          rw [attemptOf, hf] at hu
          simp [hj, hp, Except.toOption] at hu
        | error e =>
          have herr : errOf env u = some e := by simp [errOf, hf, hj, hp]
          have hstep : (tryCandidates env (u :: rest) lastE).2 =
              (tryCandidates env rest (some e)).2 := by
            simp [tryCandidates, hf, hj, hp]
          rw [hstep, ih (some e) hrest, List.filterMap_cons, herr]
          simp only [Option.toList, List.singleton_append]
          exact getLast?_restart _ e _
      · by_cases hx : sniffXml payload
        · cases hp : parseRssBytes env payload with
          | ok d =>
            exfalso
            rw [attemptOf, hf] at hu
            simp [hj, hx, hp, Except.toOption] at hu
          | error e =>
            have herr : errOf env u = some e := by simp [errOf, hf, hj, hx, hp]
            have hstep : (tryCandidates env (u :: rest) lastE).2 =
                (tryCandidates env rest (some e)).2 := by
              simp [tryCandidates, hf, hj, hx, hp]
            rw [hstep, ih (some e) hrest, List.filterMap_cons, herr]
            simp only [Option.toList, List.singleton_append]
            exact getLast?_restart _ e _
        · have herr : errOf env u = none := by simp [errOf, hf, hj, hx]
          have hstep : (tryCandidates env (u :: rest) lastE).2 =
              (tryCandidates env rest lastE).2 := by
            simp [tryCandidates, hf, hj, hx]
          rw [hstep, ih lastE hrest, List.filterMap_cons, herr]

/-- C2: the orchestrator tries the candidates strictly in order — the written
snapshot is the first per-candidate fetch-and-parse success (`findSome?` over
the candidate list), so later candidates are not consulted once one wins;
every candidate error is caught (the run always terminates with exit code 0
or 1, 0 exactly on a successful write); and when every candidate fails the
run exits 1, performs no filesystem operation, and surfaces the last
encountered error (the generic all-failed error if none was recorded). -/
theorem c2_candidate_fallback (env : Env) :
    (main env).written = candidates.findSome? (attemptOf env) ∧
    ((main env).exitCode = 0 ↔ (candidates.findSome? (attemptOf env)).isSome) ∧
    ((main env).exitCode = 0 ∨ (main env).exitCode = 1) ∧
    ((∀ u ∈ candidates, attemptOf env u = none) →
      (main env).exitCode = 1 ∧ (main env).fsTrace = [] ∧
      (main env).written = none ∧
      (main env).surfaced =
        some (((candidates.filterMap (errOf env)).getLast?).getD .allFailed)) := by
  have h1 := tryCandidates_fst env candidates none
  rcases htc : tryCandidates env candidates none with ⟨data, le⟩
  rw [htc] at h1
  cases data with
  | some d =>
    have hm : main env = ⟨0, write_json OUT_PATH d, none, some d⟩ := by
      unfold main
      rw [htc]
    refine ⟨by rw [hm, ← h1], by rw [hm, ← h1]; simp, by rw [hm]; left; rfl, ?_⟩
    intro hall
    exfalso
    have : candidates.findSome? (attemptOf env) = none :=
      List.findSome?_eq_none_iff.mpr hall
    rw [this] at h1
    exact Option.noConfusion h1
  | none =>
    have hm : main env = ⟨1, [], some (le.getD .allFailed), none⟩ := by
      unfold main
      rw [htc]
    refine ⟨by rw [hm, ← h1], by rw [hm, ← h1]; simp, by rw [hm]; right; rfl, ?_⟩
    intro hall
    have h2 := tryCandidates_snd_all_fail env candidates none hall
    rw [htc] at h2
    simp only [Option.toList, List.nil_append] at h2
    refine ⟨by rw [hm], by rw [hm], by rw [hm], ?_⟩
    rw [hm]
    simp only [h2]

/-- C2 witness: in an environment where every curl attempt times out, the run
exits 1, performs no write, and surfaces the timeout. -/
theorem c2_witness :
    (main envAllFail).exitCode = 1 ∧ (main envAllFail).fsTrace = [] ∧
    (main envAllFail).surfaced = some .timedOut := by
  have h := (c2_candidate_fallback envAllFail).2.2.2 (fun u _ => rfl)
  refine ⟨h.1, h.2.1, ?_⟩
  rw [h.2.2.2]
  rfl

/-- Both branches of `parse_rss` stamp the native feed URL as `source`. -/
theorem parse_rss_source (pd : String → Option PDT) (now : String)
    (root : XElem) (limit : Nat) :
    (parse_rss pd now root limit).source = FEED_URL := by
  rcases h : findE root "channel" with _ | channel <;> simp [parse_rss, h]

/-- A successful `parse_archive` stamps the archive API URL as `source`. -/
theorem parse_archive_source (now : String) (v : JVal) (limit : Nat)
    (s : Snapshot) (h : parse_archive now v limit = .ok s) :
    s.source = archiveUrl limit := by
  cases v with
  | arr items =>
    simp only [parse_archive] at h
    cases hrec : archivePosts (items.take limit) with
    | ok ps =>
      rw [hrec] at h
      cases h
      rfl
    | error e =>
      rw [hrec] at h
      cases h
  | null => exact Except.noConfusion h
  | bool b => exact Except.noConfusion h
  | num n => exact Except.noConfusion h
  | str st => exact Except.noConfusion h
  | obj kvs => exact Except.noConfusion h

/-- Raw-bytes version of `parse_archive_source`. -/
theorem parseArchiveBytes_source (env : Env) (payload : Bytes) (s : Snapshot)
    (h : parseArchiveBytes env payload = .ok s) : s.source = archiveUrl 6 := by
  unfold parseArchiveBytes at h
  cases hd : env.dj payload with
  | error e =>
    rw [hd] at h
    exact Except.noConfusion h
  | ok v =>
    rw [hd] at h
    exact parse_archive_source env.now v 6 s h

/-- Raw-bytes version of `parse_rss_source`. -/
theorem parseRssBytes_source (env : Env) (payload : Bytes) (s : Snapshot)
    (h : parseRssBytes env payload = .ok s) : s.source = FEED_URL := by
  unfold parseRssBytes at h
  cases hd : env.dx payload with
  | error e =>
    rw [hd] at h
    exact Except.noConfusion h
  | ok root =>
    rw [hd] at h
    cases h
    exact parse_rss_source env.pd env.now root 6

/-- Any snapshot the candidate loop returns carries one of the two stamped
source URLs. -/
theorem tryCandidates_source (env : Env) (cs : List String)
    (lastE : Option Err) (d : Snapshot)
    (h : (tryCandidates env cs lastE).1 = some d) :
    d.source = archiveUrl 6 ∨ d.source = FEED_URL := by
  induction cs generalizing lastE with
  | nil => exact Option.noConfusion h
  | cons u rest ih =>
    cases hf : env.fetchF u with
    | error e =>
      rw [show (tryCandidates env (u :: rest) lastE).1 =
        (tryCandidates env rest (some e)).1 by simp [tryCandidates, hf]] at h
      exact ih (some e) h
    | ok payload =>
      by_cases hj : sniffJson payload
      · cases hp : parseArchiveBytes env payload with
        | ok d2 =>
          rw [show (tryCandidates env (u :: rest) lastE).1 = some d2 by
            simp [tryCandidates, hf, hj, hp]] at h
          cases h
          exact Or.inl (parseArchiveBytes_source env payload d hp)
        | error e =>
          rw [show (tryCandidates env (u :: rest) lastE).1 =
            (tryCandidates env rest (some e)).1 by
            simp [tryCandidates, hf, hj, hp]] at h
          exact ih (some e) h
      · by_cases hx : sniffXml payload
        · cases hp : parseRssBytes env payload with
          | ok d2 =>
            rw [show (tryCandidates env (u :: rest) lastE).1 = some d2 by
              simp [tryCandidates, hf, hj, hx, hp]] at h
            cases h
            exact Or.inr (parseRssBytes_source env payload d hp)
          | error e =>
            rw [show (tryCandidates env (u :: rest) lastE).1 =
              (tryCandidates env rest (some e)).1 by
              simp [tryCandidates, hf, hj, hx, hp]] at h
            exact ih (some e) h
        · rw [show (tryCandidates env (u :: rest) lastE).1 =
            (tryCandidates env rest lastE).1 by
            simp [tryCandidates, hf, hj, hx]] at h
          exact ih lastE h

/-- C7 counterexample: a run in which the archive API candidate fails and the
*proxied* archive candidate is the one fetched and parsed.  The claim says the
snapshot's `source` equals the fetched candidate's URL, but the code stamps
the non-proxied archive API URL. -/
theorem c7_counterexample :
    attemptOf envProxyWins (archiveUrl 6) = none ∧
    (attemptOf envProxyWins
      (jinaProxy (pyReplace (archiveUrl 6) "https://" ""))).isSome = true ∧
    (main envProxyWins).written.map (fun s => s.source) =
      some (archiveUrl 6) ∧
    archiveUrl 6 ≠ jinaProxy (pyReplace (archiveUrl 6) "https://" "") := by
  exact ⟨rfl, rfl, rfl, by decide⟩

/-- C7 (amended): the `source` field identifies the payload family that won,
not the exact candidate URL fetched: a JSON-archive win is stamped with the
archive API URL and an RSS/Atom win with the native feed URL, regardless of
whether the winning candidate was a proxied URL. -/
theorem c7_source_stamps_family (env : Env) :
    (∀ payload s, parseArchiveBytes env payload = .ok s →
      s.source = archiveUrl 6) ∧
    (∀ payload s, parseRssBytes env payload = .ok s → s.source = FEED_URL) ∧
    (∀ d, (main env).written = some d →
      d.source = archiveUrl 6 ∨ d.source = FEED_URL) := by
  refine ⟨fun payload s h => parseArchiveBytes_source env payload s h,
    fun payload s h => parseRssBytes_source env payload s h, ?_⟩
  intro d hd
  rcases htc : tryCandidates env candidates none with ⟨data, le⟩
  have hw : (main env).written = data := by
    unfold main
    rw [htc]
    cases data <;> rfl
  rw [hd] at hw
  exact tryCandidates_source env candidates none d (by rw [htc, ← hw])

/-- C7 witness: in the proxy-wins environment the written snapshot's source
is one of the two stamped URLs (here, the archive API URL). -/
theorem c7_witness :
    (⟨archiveUrl 6, some "The Civic Node",
      some "https://drinkyouroj.substack.com", "T", []⟩ : Snapshot).source =
        archiveUrl 6 ∨
    (⟨archiveUrl 6, some "The Civic Node",
      some "https://drinkyouroj.substack.com", "T", []⟩ : Snapshot).source =
        FEED_URL :=
  (c7_source_stamps_family envProxyWins).2.2 _ rfl

/-- A retry step only yields a success that its continuation produced. -/
theorem retryStep_fst_ok {w : ℚ} {e : Err} {fuel : Nat}
    {r : Except Err Bytes × List ℚ} {data : Bytes}
    (h : (retryStep w e fuel r).1 = .ok data) : r.1 = .ok data := by
  unfold retryStep at h
  by_cases h0 : fuel = 0
  · rw [if_pos h0] at h
    exact Except.noConfusion h
  · rwa [if_neg h0] at h

/-- The sleep trace of a retry step. -/
theorem retryStep_snd (w : ℚ) (e : Err) (fuel : Nat)
    (r : Except Err Bytes × List ℚ) :
    (retryStep w e fuel r).2 = if fuel = 0 then [] else w :: r.2 := by
  unfold retryStep
  by_cases h0 : fuel = 0
  · rw [if_pos h0, if_pos h0]
  · rw [if_neg h0, if_neg h0]

/-- Bytes returned by the retry loop passed all the body-shape checks. -/
theorem fetchAux_ok_checks (env : Nat → CurlRes) (jit : Nat → ℚ) :
    ∀ fuel i lastE data, (fetchAux env jit i fuel lastE).1 = .ok data →
      looksLikeChallenge data = false ∧ looksXmlJson data = true := by
  intro fuel
  induction fuel with
  | zero =>
    intro i lastE data h
    exact Except.noConfusion h
  | succ fuel ih =>
    intro i lastE data h
    rw [show fetchAux env jit i (fuel + 1) lastE =
      (match env i with
      | .timeout =>
        retryStep (2 ^ i + jit i) .timedOut fuel
          (fetchAux env jit (i + 1) fuel (some .timedOut))
      | .done rc h403 data =>
        if rc ≠ 0 then
          if h403 || rc == 22 then
            retryStep (2 ^ i + jit i) .httpForbidden fuel
              (fetchAux env jit (i + 1) fuel lastE)
          else
            retryStep (2 ^ i + jit i) (.curlFail rc) fuel
              (fetchAux env jit (i + 1) fuel (some (.curlFail rc)))
        else if looksLikeChallenge data then
          retryStep (2 ^ i + jit i) .cloudflarePage fuel
            (fetchAux env jit (i + 1) fuel lastE)
        else if !looksXmlJson data then
          retryStep (2 ^ i + jit i) .notXmlJson fuel
            (fetchAux env jit (i + 1) fuel lastE)
        else (.ok data, [])) from rfl] at h
    cases he : env i with
    | timeout =>
      rw [he] at h
      exact ih (i + 1) (some .timedOut) data (retryStep_fst_ok h)
    | done rc h403 out =>
      rw [he] at h
      dsimp only at h
      by_cases hrc : rc ≠ 0
      · rw [if_pos hrc] at h
        by_cases h43 : (h403 || rc == 22) = true
        · rw [if_pos h43] at h
          exact ih (i + 1) lastE data (retryStep_fst_ok h)
        · rw [if_neg h43] at h
          exact ih (i + 1) (some (.curlFail rc)) data (retryStep_fst_ok h)
      · rw [if_neg hrc] at h
        by_cases hch : looksLikeChallenge out = true
        · rw [if_pos hch] at h
          exact ih (i + 1) lastE data (retryStep_fst_ok h)
        · rw [if_neg hch] at h
          by_cases hxl : (!looksXmlJson out) = true
          · rw [if_pos hxl] at h
            exact ih (i + 1) lastE data (retryStep_fst_ok h)
          · rw [if_neg hxl] at h
            cases h
            constructor
            · exact Bool.eq_false_iff.mpr hch
            · simpa using hxl

/-- C8: whenever `fetch` returns bytes, those bytes do not start with an HTML
document marker, do not contain the bot-challenge marker, and after stripping
leading whitespace begin with one of the five accepted payload prefixes — in
particular a payload starting with `<html>` is never returned. -/
theorem c8_fetch_returns_sniffable (env : Nat → CurlRes) (jit : Nat → ℚ)
    (maxR : Nat) (data : Bytes) (h : (fetch env jit maxR).1 = .ok data) :
    startsWithB data (bytesOf "<!DOCTYPE") = false ∧
    startsWithB data (bytesOf "<html") = false ∧
    containsSeq data (bytesOf "Just a moment") = false ∧
    looksXmlJson data = true := by
  have hc := fetchAux_ok_checks env jit maxR 0 none data h
  have hch := hc.1
  simp only [looksLikeChallenge, Bool.or_eq_false_iff] at hch
  exact ⟨hch.1.1, hch.1.2, hch.2, hc.2⟩

/-- C8 witness: a first attempt that answers with a clean JSON payload is
returned and satisfies all shape checks. -/
theorem c8_witness :
    startsWithB (bytesOf "[]") (bytesOf "<!DOCTYPE") = false ∧
    startsWithB (bytesOf "[]") (bytesOf "<html") = false ∧
    containsSeq (bytesOf "[]") (bytesOf "Just a moment") = false ∧
    looksXmlJson (bytesOf "[]") = true :=
  c8_fetch_returns_sniffable (fun _ => .done 0 false (bytesOf "[]"))
    (fun _ => 0) 3 (bytesOf "[]") rfl

/-- The sleep trace of the retry loop from attempt `i` is one backoff value
per failed attempt, consecutively from `i`, and there are strictly fewer
sleeps than iterations (no sleep after the final attempt). -/
theorem fetchAux_sleeps (env : Nat → CurlRes) (jit : Nat → ℚ) :
    ∀ fuel i lastE, ∃ m, (fetchAux env jit i fuel lastE).2 =
      (List.range' i m).map (fun k => (2 : ℚ) ^ k + jit k) ∧ m ≤ fuel - 1 := by
  intro fuel
  induction fuel with
  | zero =>
    intro i lastE
    exact ⟨0, rfl, by omega⟩
  | succ fuel ih =>
    intro i lastE
    have hstep : ∀ (e : Err) (le : Option Err),
        ∃ m, (retryStep ((2 : ℚ) ^ i + jit i) e fuel
            (fetchAux env jit (i + 1) fuel le)).2 =
          (List.range' i m).map (fun k => (2 : ℚ) ^ k + jit k) ∧
          m ≤ (fuel + 1) - 1 := by
      intro e le
      rcases ih (i + 1) le with ⟨m, hm, hle⟩
      by_cases h0 : fuel = 0
      · refine ⟨0, ?_, by omega⟩
        rw [retryStep_snd, if_pos h0]
        rfl
      · refine ⟨m + 1, ?_, by omega⟩
        rw [retryStep_snd, if_neg h0, hm, List.range'_succ, List.map_cons]
    cases he : env i with
    | timeout =>
      rcases hstep .timedOut (some .timedOut) with ⟨m, hm, hle⟩
      refine ⟨m, ?_, hle⟩
      rw [show (fetchAux env jit i (fuel + 1) lastE).2 =
        (retryStep ((2 : ℚ) ^ i + jit i) .timedOut fuel
          (fetchAux env jit (i + 1) fuel (some .timedOut))).2 by
          simp [fetchAux, he]]
      exact hm
    | done rc h403 out =>
      by_cases hrc : rc ≠ 0
      · by_cases h43 : (h403 || rc == 22) = true
        · rcases hstep .httpForbidden lastE with ⟨m, hm, hle⟩
          refine ⟨m, ?_, hle⟩
          rw [show (fetchAux env jit i (fuel + 1) lastE).2 =
            (retryStep ((2 : ℚ) ^ i + jit i) .httpForbidden fuel
              (fetchAux env jit (i + 1) fuel lastE)).2 by
              simp [fetchAux, he, hrc, h43]]
          exact hm
        · rcases hstep (.curlFail rc) (some (.curlFail rc)) with ⟨m, hm, hle⟩
          refine ⟨m, ?_, hle⟩
          rw [show (fetchAux env jit i (fuel + 1) lastE).2 =
            (retryStep ((2 : ℚ) ^ i + jit i) (.curlFail rc) fuel
              (fetchAux env jit (i + 1) fuel (some (.curlFail rc)))).2 by
              simp [fetchAux, he, hrc, h43]]
          exact hm
      · by_cases hch : looksLikeChallenge out = true
        · rcases hstep .cloudflarePage lastE with ⟨m, hm, hle⟩
          refine ⟨m, ?_, hle⟩
          rw [show (fetchAux env jit i (fuel + 1) lastE).2 =
            (retryStep ((2 : ℚ) ^ i + jit i) .cloudflarePage fuel
              (fetchAux env jit (i + 1) fuel lastE)).2 by
              simp [fetchAux, he, hrc, hch]]
          exact hm
        · by_cases hxl : (!looksXmlJson out) = true
          · rcases hstep .notXmlJson lastE with ⟨m, hm, hle⟩
            refine ⟨m, ?_, hle⟩
            rw [show (fetchAux env jit i (fuel + 1) lastE).2 =
              (retryStep ((2 : ℚ) ^ i + jit i) .notXmlJson fuel
                (fetchAux env jit (i + 1) fuel lastE)).2 by
                simp [fetchAux, he, hrc, hch, hxl]]
            exact hm
          · refine ⟨0, ?_, by omega⟩
            simp [fetchAux, he, hrc, hch, hxl]

/-- C9: before every retry after failed attempt `i` (0-indexed) the loop
sleeps exactly `2^i + j` seconds with jitter `0 ≤ j < 2`: the full sleep
trace is `[2^0 + j(0), ..., 2^(m-1) + j(m-1)]` for the `m` failed non-final
attempts, and `m ≤ max_retries - 1`, i.e. no sleep ever follows the final
attempt — on its failure the terminal error is raised instead. -/
theorem c9_backoff_schedule (env : Nat → CurlRes) (jit : Nat → ℚ)
    (maxR : Nat) (hj : ∀ k, 0 ≤ jit k ∧ jit k < 2) :
    ∃ m, (fetch env jit maxR).2 =
        (List.range m).map (fun k => (2 : ℚ) ^ k + jit k) ∧
      m ≤ maxR - 1 ∧ ∀ k, k < m → 0 ≤ jit k ∧ jit k < 2 := by
  rcases fetchAux_sleeps env jit maxR 0 none with ⟨m, hm, hle⟩
  refine ⟨m, ?_, hle, fun k _ => hj k⟩
  rw [List.range_eq_range']
  exact hm

/-- C9 witness: three timing-out attempts with zero jitter sleep according to
the schedule, with at most `3 - 1` sleeps. -/
theorem c9_witness :
    ∃ m, (fetch (fun _ => CurlRes.timeout) (fun _ => 0) 3).2 =
        (List.range m).map (fun k => (2 : ℚ) ^ k + (fun _ => (0 : ℚ)) k) ∧
      m ≤ 3 - 1 ∧ ∀ k, k < m → (0 : ℚ) ≤ 0 ∧ (0 : ℚ) < 2 :=
  c9_backoff_schedule (fun _ => CurlRes.timeout) (fun _ => 0) 3
    (fun _ => ⟨le_refl 0, by norm_num⟩)

/-- Every month has between 28 and 31 days. -/
theorem daysInMonth_bounds (y m : Nat) :
    28 ≤ daysInMonth y m ∧ daysInMonth y m ≤ 31 := by
  unfold daysInMonth
  split_ifs <;> omega

/-- `nextDay` of a calendar-valid date is calendar-valid (months and days). -/
theorem nextDay_valid {y m d : Nat} (hm1 : 1 ≤ m) (hm2 : m ≤ 12)
    (hd1 : 1 ≤ d) (_hd2 : d ≤ daysInMonth y m) :
    1 ≤ (nextDay y m d).2.1 ∧ (nextDay y m d).2.1 ≤ 12 ∧
    1 ≤ (nextDay y m d).2.2 ∧
    (nextDay y m d).2.2 ≤ daysInMonth (nextDay y m d).1 (nextDay y m d).2.1 := by
  unfold nextDay
  split_ifs with h1 h2
  · show 1 ≤ m ∧ m ≤ 12 ∧ 1 ≤ d + 1 ∧ d + 1 ≤ daysInMonth y m
    exact ⟨hm1, hm2, by omega, by omega⟩
  · show 1 ≤ m + 1 ∧ m + 1 ≤ 12 ∧ 1 ≤ 1 ∧ 1 ≤ daysInMonth y (m + 1)
    have hb := (daysInMonth_bounds y (m + 1)).1
    exact ⟨by omega, by omega, le_refl 1, by omega⟩
  · show 1 ≤ 1 ∧ (1 : Nat) ≤ 12 ∧ 1 ≤ 1 ∧ 1 ≤ daysInMonth (y + 1) 1
    have hb := (daysInMonth_bounds (y + 1) 1).1
    exact ⟨le_refl 1, by omega, le_refl 1, by omega⟩

/-- `prevDay` of a calendar-valid date is calendar-valid (months and days). -/
theorem prevDay_valid {y m d : Nat} (hm1 : 1 ≤ m) (hm2 : m ≤ 12)
    (_hd1 : 1 ≤ d) (hd2 : d ≤ daysInMonth y m) :
    1 ≤ (prevDay y m d).2.1 ∧ (prevDay y m d).2.1 ≤ 12 ∧
    1 ≤ (prevDay y m d).2.2 ∧
    (prevDay y m d).2.2 ≤ daysInMonth (prevDay y m d).1 (prevDay y m d).2.1 := by
  unfold prevDay
  split_ifs with h1 h2
  · show 1 ≤ m ∧ m ≤ 12 ∧ 1 ≤ d - 1 ∧ d - 1 ≤ daysInMonth y m
    exact ⟨hm1, hm2, by omega, by omega⟩
  · show 1 ≤ m - 1 ∧ m - 1 ≤ 12 ∧ 1 ≤ daysInMonth y (m - 1) ∧
      daysInMonth y (m - 1) ≤ daysInMonth y (m - 1)
    have hb := (daysInMonth_bounds y (m - 1)).1
    exact ⟨by omega, by omega, by omega, le_refl _⟩
  · show 1 ≤ 12 ∧ (12 : Nat) ≤ 12 ∧ 1 ≤ 31 ∧ 31 ≤ daysInMonth (y - 1) 12
    have hb : daysInMonth (y - 1) 12 = 31 := rfl
    exact ⟨by omega, le_refl _, by omega, by omega⟩

/-- The rolled date of a valid datetime is calendar-valid. -/
theorem rollDate_valid {p : PDT} (t : Int) (hm1 : 1 ≤ p.month)
    (hm2 : p.month ≤ 12) (hd1 : 1 ≤ p.day)
    (hd2 : p.day ≤ daysInMonth p.year p.month) :
    1 ≤ (rollDate p t).2.1 ∧ (rollDate p t).2.1 ≤ 12 ∧
    1 ≤ (rollDate p t).2.2 ∧
    (rollDate p t).2.2 ≤ daysInMonth (rollDate p t).1 (rollDate p t).2.1 := by
  unfold rollDate
  split_ifs with h1 h2
  · exact prevDay_valid hm1 hm2 hd1 hd2
  · exact nextDay_valid hm1 hm2 hd1 hd2
  · exact ⟨hm1, hm2, hd1, hd2⟩

/-- The rolled time of a valid datetime with a valid offset lies within one
day. -/
theorem rollTime_bounds {t : Int} (h1 : -86400 < t) (h2 : t < 172800) :
    0 ≤ rollTime t ∧ rollTime t < 86400 := by
  unfold rollTime
  split_ifs with ha hb <;> omega

/-- Any datetime `astimezone` successfully converts is a calendar-valid UTC
datetime. -/
theorem toUTC_valid {p : PDT} {u : UTCDT} (h : toUTC p = some u) :
    utcOk u = true := by
  unfold toUTC at h
  by_cases hok : (dtFieldsOk p && tzOk p.tzSeconds) = true
  swap
  · rw [if_neg hok] at h
    exact Option.noConfusion h
  rw [if_pos hok] at h
  rw [Bool.and_eq_true] at hok
  have hf := hok.1
  have ht := hok.2
  simp only [dtFieldsOk, Bool.and_eq_true, decide_eq_true_eq] at hf
  obtain ⟨⟨⟨⟨⟨⟨⟨⟨hy1, hy2⟩, hm1⟩, hm2⟩, hd1⟩, hd2⟩, hh⟩, hmi⟩, hs⟩ := hf
  have hoffb : -86400 < p.tzSeconds.getD 0 ∧ p.tzSeconds.getD 0 < 86400 := by
    cases hz : p.tzSeconds with
    | none => simp
    | some z =>
      rw [hz] at ht
      simp only [tzOk, Bool.and_eq_true, decide_eq_true_eq] at ht
      simpa using ht
  have htb : -86400 < adjSeconds p ∧ adjSeconds p < 172800 := by
    unfold adjSeconds
    omega
  have hroll := rollTime_bounds htb.1 htb.2
  have hdate := rollDate_valid (p := p) (adjSeconds p) hm1 hm2 hd1 hd2
  by_cases hy : (1 ≤ (rollDate p (adjSeconds p)).1 &&
      (rollDate p (adjSeconds p)).1 ≤ 9999) = true
  swap
  · rw [if_neg hy] at h
    exact Option.noConfusion h
  rw [if_pos hy] at h
  simp only [Bool.and_eq_true, decide_eq_true_eq] at hy
  have hu2 := Option.some.inj h
  subst hu2
  simp only [utcOk, Bool.and_eq_true, decide_eq_true_eq]
  have ht2 : ((rollTime (adjSeconds p)).toNat : Int) = rollTime (adjSeconds p) :=
    Int.toNat_of_nonneg hroll.1
  have ht3 : (rollTime (adjSeconds p)).toNat < 86400 := by omega
  exact ⟨⟨⟨⟨⟨⟨⟨⟨hy.1, hy.2⟩, hdate.1⟩, hdate.2.1⟩, hdate.2.2.1⟩,
    hdate.2.2.2⟩, by omega⟩, by omega⟩, by omega⟩

/-- The rendered ISO string of a UTC datetime always has 25 characters. -/
theorem isoUTC_length (u : UTCDT) : (isoUTC u).length = 25 := by
  show (String.mk (pad4 u.year ++ '-' :: pad2 u.month ++ '-' :: pad2 u.day ++
    'T' :: pad2 u.hour ++ ':' :: pad2 u.minute ++ ':' :: pad2 u.second ++
    "+00:00".data)).length = 25
  simp [String.length, pad4, pad2]

/-- `"garbage"` is not a valid UTC ISO-8601 rendering. -/
theorem not_validUTCISO_garbage : ¬ ValidUTCISO "garbage" := by
  rintro ⟨u, hu, hiso⟩
  have hlen := congrArg String.length hiso
  rw [isoUTC_length] at hlen
  have h7 : ("garbage" : String).length = 7 := rfl
  omega

/-- C6 counterexample: an Atom feed whose entry has `updated` text
`"garbage"` produces a post whose date is the verbatim string `"garbage"`,
which is neither empty nor a valid UTC ISO-8601 timestamp. -/
theorem c6_counterexample :
    (parse_rss (fun _ => none) "T" atomRootGarbage 6).posts.map Post.date =
      [JVal.str "garbage"] ∧
    ¬(("garbage" : String) = "" ∨ ValidUTCISO "garbage") := by
  refine ⟨rfl, ?_⟩
  rintro (h | h)
  · exact absurd h (by decide)
  · exact not_validUTCISO_garbage h

/-- C6 (amended): only the RSS 2.0 path normalizes dates — `parse_pubdate`
always yields a valid UTC ISO-8601 timestamp or the empty string (empty for
missing/unparsable input), so every RSS-path post date is valid-or-empty; the
Atom path copies the `updated` text verbatim, and the JSON-archive path
copies the truthy `post_date` field verbatim (empty string otherwise). -/
theorem c6_date_normalization :
    (∀ pd s, parse_pubdate pd s = "" ∨ ValidUTCISO (parse_pubdate pd s)) ∧
    (∀ pd now root channel, findE root "channel" = some channel →
      ∀ p ∈ (parse_rss pd now root 6).posts,
        ∃ ds, p.date = JVal.str ds ∧ (ds = "" ∨ ValidUTCISO ds)) ∧
    (∀ pd now root, findE root "channel" = none →
      (parse_rss pd now root 6).posts.map Post.date =
        ((findallE root (atomTag "entry")).take 6).map
          (fun e => JVal.str (textOf (findE e (atomTag "updated"))))) ∧
    (∀ now items s, parse_archive now (.arr items) 6 = .ok s →
      List.Forall₂ (fun it p => ∃ kvs, it = JVal.obj kvs ∧
        p.date = (if truthy (jget kvs "post_date") then jget kvs "post_date"
          else JVal.str "")) (items.take 6) s.posts) := by
  have hpub : ∀ pd s, parse_pubdate pd s = "" ∨
      ValidUTCISO (parse_pubdate pd s) := by
    intro pd s
    unfold parse_pubdate
    by_cases hs : s = ""
    · rw [if_pos hs]
      exact Or.inl rfl
    rw [if_neg hs]
    cases hp : pd s with
    | none => exact Or.inl rfl
    | some p =>
      show (match toUTC p with | none => "" | some u => isoUTC u) = "" ∨
        ValidUTCISO (match toUTC p with | none => "" | some u => isoUTC u)
      cases hu : toUTC p with
      | none => exact Or.inl rfl
      | some u => exact Or.inr ⟨u, toUTC_valid hu, rfl⟩
  refine ⟨hpub, ?_, ?_, ?_⟩
  · intro pd now root channel hch p hp
    rw [show (parse_rss pd now root 6).posts =
      ((findallE channel "item").take 6).map (rssPost pd) by
        simp [parse_rss, hch]] at hp
    rcases List.mem_map.mp hp with ⟨it, _, hit⟩
    exact ⟨parse_pubdate pd (textOf (findE it "pubDate")), by rw [← hit]; rfl,
      hpub pd (textOf (findE it "pubDate"))⟩
  · intro pd now root hch
    rw [show (parse_rss pd now root 6).posts =
      ((findallE root (atomTag "entry")).take 6).map atomPost by
        simp [parse_rss, hch]]
    rw [List.map_map]
    rfl
  · intro now items s h
    simp only [parse_archive] at h
    cases hrec : archivePosts (items.take 6) with
    | ok ps =>
      rw [hrec] at h
      cases h
      refine (archivePosts_ok hrec).imp ?_
      intro a b hx
      rcases hx with ⟨kvs, hkv, hpost⟩
      exact ⟨kvs, hkv, by rw [hpost]; rfl⟩
    | error e =>
      rw [hrec] at h
      cases h

/-- C6 witness: the sample RSS feed (with a parser that accepts nothing)
yields a first post whose date is the empty string, hence valid-or-empty. -/
theorem c6_witness :
    ∃ ds, (rssPost (fun _ => none)
        (⟨"item", [], none, [⟨"title", [], some "A", []⟩]⟩ : XElem)).date =
      JVal.str ds ∧ (ds = "" ∨ ValidUTCISO ds) :=
  c6_date_normalization.2.1 (fun _ => none) "T" sampleRssRoot sampleChannel
    rfl _ (List.mem_cons_self _ _)

/-- C5 witness: the archive list containing only the null-title object is
normalized to the corresponding single archive post. -/
theorem c5_witness :
    List.Forall₂ (fun it p => ∃ kvs, it = JVal.obj kvs ∧ p = archivePost kvs)
      ([JVal.obj archiveItemNullTitle].take 6)
      [archivePost archiveItemNullTitle] :=
  c5_archive_field_fallbacks.2.1 "T" [JVal.obj archiveItemNullTitle]
    ⟨archiveUrl 6, some "The Civic Node",
      some "https://drinkyouroj.substack.com", "T",
      [archivePost archiveItemNullTitle]⟩ rfl

end Substack
